import Mathlib

/-!
Verification of the episode data model, classification engine, synchronization
merge and progress resolver of the anime-database-lib repository.

The Rust sources are shallowly embedded: pure functions become Lean functions,
the SQLite-backed state (the `anime` and `episode` tables) becomes explicit
lists of row structures that are passed and returned, machine integers become
`Nat` (the `usize` values here are seasons, episode numbers and timestamps,
far from overflow, and the source performs no wrapping arithmetic on them),
and fallible operations return sum types.
-/

set_option autoImplicit false
set_option maxRecDepth 200000

/-! ## Lexicographic comparison of strings

Rust's `Ord for String` compares the UTF-8 byte sequences lexicographically,
which orders strings exactly like the lexicographic order on their scalar
values (UTF-8 byte order agrees with code-point order).  We model it as the
lexicographic comparison of the character lists, comparing code points. -/

def charCmp (a b : Char) : Ordering :=
  compare a.toNat b.toNat

def lexCmp : List Char → List Char → Ordering
  | [], [] => .eq
  | [], _ :: _ => .lt
  | _ :: _, [] => .gt
  | a :: as, b :: bs =>
    match charCmp a b with
    | .eq => lexCmp as bs
    | o => o

def strCmp (a b : String) : Ordering :=
  lexCmp a.data b.data

/-! ## The Episode type (src/episode.rs)

```rust
pub enum Episode {
    Numbered { season: usize, episode: usize, filepath: String },
    Special { filename: String, filepath: String },
}
```
-/

inductive Episode where
  | Numbered (season : Nat) (episode : Nat) (filepath : String)
  | Special (filename : String) (filepath : String)
deriving DecidableEq, Repr

/-- The comparison of `impl PartialOrd for Episode` (src/episode.rs:27-60).
`partial_cmp` always returns `Some`, so we embed it as a total
`Ordering`-valued function.  Note the `filepath` field is ignored in every
arm, a `Numbered` compared with a `Special` yields `Greater`, and a `Special`
compared with a `Numbered` yields `Less`. -/
def Episode.cmp : Episode → Episode → Ordering
  | .Numbered season_a episode_a _, .Numbered season_b episode_b _ =>
    if season_a = season_b then compare episode_a episode_b
    else compare season_a season_b
  | .Numbered _ _ _, .Special _ _ => .gt
  | .Special _ _, .Numbered _ _ _ => .lt
  | .Special filename_a _, .Special filename_b _ => strCmp filename_a filename_b

/-! ## The episode map (src/database.rs:20)

`pub type EpisodeMap = BTreeMap<Episode, Vec<String>>;`

`BTreeMap` keys are identified up to the `Episode` comparison above.  We model
the map as an association list in insertion order whose lookups go through
`Episode.cmp`; a map built by repeated `entry(..)` insertion never holds two
keys that compare `Equal`, so the lookups below are unambiguous on every map
the embedded code constructs. -/

abbrev EpisodeMap := List (Episode × List String)

/-- `BTreeMap::get`: the bucket of the (unique) key comparing `Equal` to `k`. -/
def EpisodeMap.get (m : EpisodeMap) (k : Episode) : Option (List String) :=
  (m.find? (fun p => (Episode.cmp p.1 k).isEq)).map (·.2)

/-- `BTreeMap::get_key_value` restricted to the key, as used by
`next_episode_raw`: the stored key comparing `Equal` to `k`. -/
def EpisodeMap.getKey (m : EpisodeMap) (k : Episode) : Option Episode :=
  (m.find? (fun p => (Episode.cmp p.1 k).isEq)).map (·.1)

/-- `BTreeMap::entry(k).and_modify(|list| list.push(v)).or_insert(vec![v])`
(the fold in `Database::episodes`, src/database.rs:244-250): append `v` to the
bucket of the key comparing `Equal` to `k` if one exists, else insert a new
entry `(k, [v])`. -/
def EpisodeMap.entryInsert (m : EpisodeMap) (k : Episode) (v : String) : EpisodeMap :=
  if m.any (fun p => (Episode.cmp p.1 k).isEq) then
    m.map (fun p => if (Episode.cmp p.1 k).isEq then (p.1, p.2 ++ [v]) else p)
  else m ++ [(k, [v])]

/-! ## Error types (src/database.rs:39-57) -/

inductive InvalidEpisodeError where
  | NotExist (anime : String) (episode : Episode)
deriving DecidableEq, Repr

/-- `DatabaseError`.  The `Rusqlite`/`IO` payloads are opaque to the claims;
we carry a message string.  (`IO` is renamed `IOError` here.) -/
inductive DatabaseError where
  | Rusqlite (msg : String)
  | IOError (msg : String)
  | InvalidFile
  | UTF8
  | InvalidEpisode (e : InvalidEpisodeError)
deriving DecidableEq, Repr

/-! ## The `anime` table and the progress resolver

`update_watched_unchecked` runs
`UPDATE anime SET current_season=?1, current_episode=?2 WHERE name=?3` and
returns the number of affected rows; `current_episode` reads
`current_season, current_episode` of the named row, defaulting each `NULL`
(or missing) column to `1` via `unwrap_or(1)`.  We model the table as a list
of rows; the timestamps are unix seconds. -/

structure AnimeRow where
  name : String
  current_season : Option Nat
  current_episode : Option Nat
  last_watched : Option Nat
deriving DecidableEq, Repr

/-- `Database::update_watched_unchecked` (src/database.rs:184-204): a
`Special` episode only prints "Special episode watched not implemented" to
stderr and returns `Ok(0)` with no table change; a `Numbered` episode sets
`current_season`/`current_episode` of every row named `anime` and returns the
affected-row count.  No column other than those two is written; in particular
`last_watched` is untouched. -/
def update_watched_unchecked (table : List AnimeRow) (anime : String) (watched : Episode) :
    List AnimeRow × Except DatabaseError Nat :=
  match watched with
  | .Special _ _ => (table, .ok 0)
  | .Numbered season episode _ =>
    (table.map (fun r =>
        if r.name = anime then
          { r with current_season := some season, current_episode := some episode }
        else r),
     .ok ((table.filter (fun r => r.name = anime)).length))

/-- `Database::update_watched` (src/database.rs:206-219): succeed through the
unchecked update only when `watched` is a key of `episodes`, otherwise return
`NotExist` with the show identifier and the requested episode. -/
def update_watched (table : List AnimeRow) (anime : String) (watched : Episode)
    (episodes : EpisodeMap) : List AnimeRow × Except DatabaseError Nat :=
  match episodes.get watched with
  | some _ => update_watched_unchecked table anime watched
  | none => (table, .error (.InvalidEpisode (.NotExist anime watched)))

/-- `Database::current_episode` (src/database.rs:311-320): the
`(current_season, current_episode)` pair of the row named `anime`, each `NULL`
column defaulting to `1`; `query_row` errors when no row matches. -/
def current_episode (table : List AnimeRow) (anime : String) :
    Except DatabaseError (Nat × Nat) :=
  match table.find? (fun r => r.name = anime) with
  | some r => .ok (r.current_season.getD 1, r.current_episode.getD 1)
  | none => .error (.Rusqlite "QueryReturnedNoRows")

/-- `Database::next_episode_raw` (src/database.rs:288-308): probe
`(season, episode+1)`, then `(season+1, 0)`, then `(season+1, 1)` and return
the first map key found.  The probe key is built as
`Episode::Numbered { season, episode }`; the comparison ignores the filepath
field (absent from that struct literal), so the embedding supplies `""`. -/
def next_episode_raw (current : Nat × Nat) (episodes : EpisodeMap) : Option Episode :=
  let get_episode := fun season episode =>
    episodes.getKey (.Numbered season episode "")
  match get_episode current.1 (current.2 + 1) with
  | some episode => some episode
  | none =>
    match get_episode (current.1 + 1) 0 with
    | some episode => some episode
    | none =>
      match get_episode (current.1 + 1) 1 with
      | some episode => some episode
      | none => none

/-- `Database::next_episode` (src/database.rs:279-286). -/
def next_episode (table : List AnimeRow) (anime : String) (episodes : EpisodeMap) :
    Except DatabaseError (Option Episode) := do
  let c ← current_episode table anime
  pure (next_episode_raw c episodes)

/-! ## Listing shows (src/database.rs:22-37 and 254-277)

`Database::animes` collects `(last_watched, name)` rows into a
`BinaryHeap<TimeTitle>` and pops until empty.  `BinaryHeap` is a max-heap
driven by the comparison operators, i.e. by the *manual* `PartialOrd`
implementation of `TimeTitle` (the derived `Ord` is never consulted by the
heap's sifting, which uses `<=`/`>=`); popping yields the rows in descending
order of that comparison.  Row names are unique (`anime` is the primary key),
making the comparison total and strict on any realizable table, so the pop
sequence is exactly the descending sort below. -/

/-- `Ord for Option<usize>`: `None` is less than every `Some`. -/
def optNatCmp : Option Nat → Option Nat → Ordering
  | none, none => .eq
  | none, some _ => .lt
  | some _, none => .gt
  | some a, some b => compare a b

/-- The manual `PartialOrd for TimeTitle` (src/database.rs:28-37): equal times
compare by title ascending, different times compare *reversed*
(`time_b.cmp(&time_a)`). -/
def ttCmp (a b : Option Nat × String) : Ordering :=
  if a.1 = b.1 then strCmp a.2 b.2 else optNatCmp b.1 a.1

/-- Insert into a list kept in descending `ttCmp` order. -/
def popInsert (x : Option Nat × String) : List (Option Nat × String) → List (Option Nat × String)
  | [] => [x]
  | y :: ys => if ttCmp x y = .gt then x :: y :: ys else y :: popInsert x ys

/-- `Database::animes` (src/database.rs:254-277): the names of the
`(last_watched, name)` rows in `BinaryHeap` pop order, i.e. descending with
respect to `ttCmp`. -/
def animes (rows : List (Option Nat × String)) : List String :=
  (rows.foldl (fun acc r => popInsert r acc) []).map (·.2)

/-! ## The `episode` table and synchronization (src/database.rs:114-181, 221-252) -/

structure EpisodeRow where
  path : String
  anime : String
  episode : Option Nat
  season : Option Nat
  special : Option String
deriving DecidableEq, Repr

/-- `str::trim`, on the ASCII whitespace that can occur in the filenames at
hand (the Rust version also strips other Unicode whitespace). -/
def isWhitespaceChar (c : Char) : Bool :=
  c = ' ' || c = '\t' || c = '\n' || c = '\r'

def trimStr (s : String) : String :=
  String.mk (((s.data.dropWhile isWhitespaceChar).reverse.dropWhile isWhitespaceChar).reverse)

/-- The row bound by `Database::update` for one classified file
(src/database.rs:168-179): a `Numbered` episode fills `episode`/`season`, a
`Special` fills `special` with the trimmed filename. -/
def episodeRowOf (path anime : String) (ep : Episode) : EpisodeRow :=
  match ep with
  | .Numbered season episode _ => ⟨path, anime, some episode, some season, none⟩
  | .Special filename _ => ⟨path, anime, none, none, some (trimStr filename)⟩

/-- `INSERT OR IGNORE INTO episode` with `path` the primary key: a row whose
`path` is already present is ignored, otherwise the row is appended. -/
def insertOrIgnore (t : List EpisodeRow) (r : EpisodeRow) : List EpisodeRow :=
  if t.any (fun r0 => r0.path = r.path) then t else t ++ [r]

/-- The episode-inserting loop of `Database::update` (src/database.rs:168-179)
over the classified walk output `entries` (file path, show identifier,
episode).  The directory walk, extension filter and classification feeding
this loop are deterministic in the directory contents, so synchronizing an
unchanged directory replays the same `entries`.  (The anime-name loop at
src/database.rs:127-132 is likewise `INSERT OR IGNORE` keyed on the name and
does not touch the episode table.) -/
def update : List EpisodeRow → List (String × String × Episode) → List EpisodeRow
  | t, [] => t
  | t, e :: es => update (insertOrIgnore t (episodeRowOf e.1 e.2.1 e.2.2)) es

/-- Rebuild the `Episode` of a row (src/database.rs:232-241): a non-`NULL`
`special` column yields a `Special`, otherwise `episode` and `season` are read
with `get_unwrap` (which panics on `NULL`, modeled as `none`; every row the
embedded `update` writes is well-formed).  The source builds the episodes
without a filepath field (the struct literals predate it); the embedding fills
it with the row's path. -/
def rowEpisode (r : EpisodeRow) : Option Episode :=
  match r.special with
  | some filename => some (.Special filename r.path)
  | none =>
    match r.episode, r.season with
    | some episode, some season => some (.Numbered season episode r.path)
    | _, _ => none

/-- `Database::episodes` (src/database.rs:221-252): fold the rows of the given
show into a map with `entry(..).and_modify(push).or_insert`. -/
def episodesOf (anime : String) (t : List EpisodeRow) : Option EpisodeMap :=
  (t.filter (fun r => r.anime = anime)).foldl
    (fun acc r => do
      let m ← acc
      let k ← rowEpisode r
      pure (m.entryInsert k r.path))
    (some [])

/-! ## A small regular-expression engine (for src/episode.rs:7-12)

The classifier is driven by three compiled patterns of the Rust `regex`
crate, which uses leftmost-first (Perl-like) match semantics: the match
starting earliest wins, and within one starting position alternatives are
preferred in pattern order with greedy (or lazy, for `*?`) repetition.  A
backtracking matcher implements exactly these semantics.  The three patterns
only ever repeat single-character classes, so repetition nodes carry a class
rather than a sub-pattern.  `\d` is the crate's default Unicode-aware digit
class: any character of general category Nd (modeled below by the Nd code
point ranges), not just the ASCII digits. -/

/-- Named capture groups: name to captured characters, most recent first. -/
abbrev Caps := List (String × List Char)

inductive Re where
  | epsR
  | chr (c : Char)
  | cls (p : Char → Bool)
  | seq (a b : Re)
  | alt (a b : Re)
  | opt (a : Re)
  | rep (p : Char → Bool) (mn mx : Nat)
  | star (p : Char → Bool) (greedy : Bool)
  | group (nm : String) (a : Re)
  | bos
  | eos

/-- A literal string as a sequence of character nodes. -/
def Re.str (s : String) : Re :=
  s.data.foldr (fun c r => Re.seq (Re.chr c) r) Re.epsR

/-- The ways a class repetition can consume a prefix of `s`: pairs of
(remaining input, consumed count) for each prefix of the `p`-run of `s` of
length at most `mx`, longest (greedy preference) first. -/
def clsSplits (p : Char → Bool) : Nat → List Char → List (List Char × Nat)
  | 0, s => [(s, 0)]
  | _ + 1, [] => [([], 0)]
  | mx + 1, c :: rest =>
    if p c then (clsSplits p mx rest).map (fun q => (q.1, q.2 + 1)) ++ [(c :: rest, 0)]
    else [(c :: rest, 0)]

/-- Backtracking matcher in continuation-passing style.  `mtch re s pos caps k`
tries every way `re` can match a prefix of `s` (where `pos` is the absolute
index of `s` in the haystack, for `^`), in preference order, calling `k` with
the remaining input, new position and extended captures; the first way whose
continuation succeeds wins. -/
def mtch {α : Type} : Re → List Char → Nat → Caps → (List Char → Nat → Caps → Option α) → Option α
  | .epsR, s, pos, caps, k => k s pos caps
  | .chr c, s, pos, caps, k =>
    match s with
    | c' :: rest => if c' = c then k rest (pos + 1) caps else none
    | [] => none
  | .cls p, s, pos, caps, k =>
    match s with
    | c' :: rest => if p c' then k rest (pos + 1) caps else none
    | [] => none
  | .seq a b, s, pos, caps, k =>
    mtch a s pos caps (fun s' pos' caps' => mtch b s' pos' caps' k)
  | .alt a b, s, pos, caps, k =>
    (mtch a s pos caps k).orElse (fun _ => mtch b s pos caps k)
  | .opt a, s, pos, caps, k =>
    (mtch a s pos caps k).orElse (fun _ => k s pos caps)
  | .rep p mn mx, s, pos, caps, k =>
    ((clsSplits p mx s).filter (fun q => mn ≤ q.2)).foldr
      (fun q acc => (k q.1 (pos + q.2) caps).orElse (fun _ => acc)) none
  | .star p greedy, s, pos, caps, k =>
    (if greedy then clsSplits p s.length s else (clsSplits p s.length s).reverse).foldr
      (fun q acc => (k q.1 (pos + q.2) caps).orElse (fun _ => acc)) none
  | .group nm a, s, pos, caps, k =>
    mtch a s pos caps (fun s' pos' caps' => k s' pos' ((nm, s.take (pos' - pos)) :: caps'))
  | .bos, s, pos, caps, k => if pos = 0 then k s pos caps else none
  | .eos, s, pos, caps, k => if s.isEmpty then k s pos caps else none

/-- Length of the preferred match of `re` at exactly position `pos`. -/
def matchAt (re : Re) (s : List Char) (pos : Nat) : Option Nat :=
  mtch re s pos [] (fun _ pos' _ => some (pos' - pos))

/-- Captures of the leftmost match at or after `pos` (`Regex::captures`). -/
def capturesFrom (re : Re) : List Char → Nat → Option Caps
  | [], pos => mtch re [] pos [] (fun _ _ caps => some caps)
  | c :: s', pos =>
    match mtch re (c :: s') pos [] (fun _ _ caps => some caps) with
    | some caps => some caps
    | none => capturesFrom re s' (pos + 1)

/-- `Regex::is_match`. -/
def is_match (re : Re) (s : List Char) : Bool :=
  (capturesFrom re s 0).isSome

/-- `Regex::replace_all` with replacement `"#"`: replace every non-overlapping
leftmost match, scanning left to right and resuming after each match.  (The
guard on a zero-length match never fires for `REG_PARSE_OUT`, whose every
alternative consumes at least three characters.)  The fuel argument makes the
recursion structural; every step consumes at least one character, so fuel
`s.length` never runs out. -/
def replaceAllFuel (re : Re) : Nat → List Char → Nat → List Char
  | 0, s, _ => s
  | _ + 1, [], _ => []
  | fuel + 1, c :: rest, pos =>
    match matchAt re (c :: rest) pos with
    | some (n + 1) => '#' :: replaceAllFuel re fuel (rest.drop n) (pos + (n + 1))
    | _ => c :: replaceAllFuel re fuel rest (pos + 1)

def replaceAll (re : Re) (s : List Char) : List Char :=
  replaceAllFuel re s.length s 0

/-! ## The three patterns (src/episode.rs:7-12) -/

/-- `.` without DOTALL: any character but a newline. -/
def anyCharP (c : Char) : Bool := c != '\n'

def anyChar : Re := .cls anyCharP

/-- The code point ranges of Unicode general category Nd (decimal digit),
Unicode 15.0 — the table behind the regex crate's default `\d`. -/
def ndRanges : List (Nat × Nat) :=
  [(0x0030, 0x0039), (0x0660, 0x0669), (0x06F0, 0x06F9), (0x07C0, 0x07C9),
   (0x0966, 0x096F), (0x09E6, 0x09EF), (0x0A66, 0x0A6F), (0x0AE6, 0x0AEF),
   (0x0B66, 0x0B6F), (0x0BE6, 0x0BEF), (0x0C66, 0x0C6F), (0x0CE6, 0x0CEF),
   (0x0D66, 0x0D6F), (0x0DE6, 0x0DEF), (0x0E50, 0x0E59), (0x0ED0, 0x0ED9),
   (0x0F20, 0x0F29), (0x1040, 0x1049), (0x1090, 0x1099), (0x17E0, 0x17E9),
   (0x1810, 0x1819), (0x1946, 0x194F), (0x19D0, 0x19D9), (0x1A80, 0x1A89),
   (0x1A90, 0x1A99), (0x1B50, 0x1B59), (0x1BB0, 0x1BB9), (0x1C40, 0x1C49),
   (0x1C50, 0x1C59), (0xA620, 0xA629), (0xA8D0, 0xA8D9), (0xA900, 0xA909),
   (0xA9D0, 0xA9D9), (0xA9F0, 0xA9F9), (0xAA50, 0xAA59), (0xABF0, 0xABF9),
   (0xFF10, 0xFF19), (0x104A0, 0x104A9), (0x10D30, 0x10D39), (0x11066, 0x1106F),
   (0x110F0, 0x110F9), (0x11136, 0x1113F), (0x111D0, 0x111D9), (0x112F0, 0x112F9),
   (0x11450, 0x11459), (0x114D0, 0x114D9), (0x11650, 0x11659), (0x116C0, 0x116C9),
   (0x11730, 0x11739), (0x118E0, 0x118E9), (0x11950, 0x11959), (0x11C50, 0x11C59),
   (0x11D50, 0x11D59), (0x11DA0, 0x11DA9), (0x11F50, 0x11F59), (0x16A60, 0x16A69),
   (0x16AC0, 0x16AC9), (0x16B50, 0x16B59), (0x1D7CE, 0x1D7FF), (0x1E140, 0x1E149),
   (0x1E2F0, 0x1E2F9), (0x1E4F0, 0x1E4F9), (0x1E950, 0x1E959), (0x1FBF0, 0x1FBF9)]

/-- `\d`: a Unicode decimal digit (general category Nd).  Below `0x80` the Nd
characters are exactly the ASCII digits, taken as a fast path so that
evaluation on ASCII inputs stays cheap. -/
def digit (c : Char) : Bool :=
  if c.toNat < 0x80 then c.isDigit
  else ndRanges.any (fun r => r.1 ≤ c.toNat && c.toNat ≤ r.2)

/-- REG_EPS:
r"(?:(?:^|S|s)(?P<s>\d{2}))?(?:_|x|E|e|EP|ep| )(?P<e>\d{1,2})(?:.bits|_| |-|\.|v|$)" -/
def REG_EPS : Re :=
  .seq (.opt (.seq (.alt .bos (.alt (.chr 'S') (.chr 's'))) (.group "s" (.rep digit 2 2))))
    (.seq (.alt (.chr '_') (.alt (.chr 'x') (.alt (.chr 'E') (.alt (.chr 'e')
        (.alt (Re.str "EP") (.alt (Re.str "ep") (.chr ' ')))))))
      (.seq (.group "e" (.rep digit 1 2))
        (.alt (.seq anyChar (Re.str "bits"))
          (.alt (.chr '_') (.alt (.chr ' ') (.alt (.chr '-') (.alt (.chr '.')
            (.alt (.chr 'v') .eos))))))))

/-- REG_PARSE_OUT: r"(x256|x265|\d{4}|\d{3})|10.bits" (the parenthesized
group's capture is never read by the code, so it is embedded ungrouped; note
the source literal is `x256`, not `x264`). -/
def REG_PARSE_OUT : Re :=
  .alt (.alt (Re.str "x256") (.alt (Re.str "x265") (.alt (.rep digit 4 4) (.rep digit 3 3))))
    (.seq (Re.str "10") (.seq anyChar (Re.str "bits")))

/-- The separator class `(-|_| )` of REG_SPECIAL (captures unused). -/
def sepCls : Re := .alt (.chr '-') (.alt (.chr '_') (.chr ' '))

/-- REG_SPECIAL:
r".*OVA.*\.|NCED.*? |NCOP.*? |(-|_| )(ED|OP|SP|no-credit_opening|no-credit_ending).*?(-|_| )" -/
def REG_SPECIAL : Re :=
  .alt (.seq (.star anyCharP true) (.seq (Re.str "OVA") (.seq (.star anyCharP true) (.chr '.'))))
    (.alt (.seq (Re.str "NCED") (.seq (.star anyCharP false) (.chr ' ')))
      (.alt (.seq (Re.str "NCOP") (.seq (.star anyCharP false) (.chr ' ')))
        (.seq sepCls
          (.seq (.alt (Re.str "ED") (.alt (Re.str "OP") (.alt (Re.str "SP")
              (.alt (Re.str "no-credit_opening") (Re.str "no-credit_ending")))))
            (.seq (.star anyCharP false) sepCls)))))

/-! ## The classifier (src/episode.rs:62-104) -/

/-- Split a character list at every `/` (like `String::split` on the path
separator); used to model `Path` components. -/
def splitSlash : List Char → List (List Char)
  | [] => [[]]
  | c :: rest =>
    if c = '/' then [] :: splitSlash rest
    else
      match splitSlash rest with
      | seg :: segs => (c :: seg) :: segs
      | [] => [[c]]

/-- `Path::file_name` for the Unix paths the library handles: the last
component after dropping empty and `.` segments, unless it is `..` (or there
is none), in which case there is no file name. -/
def file_name (path : String) : Option String :=
  let comps := (splitSlash path.data).filter (fun s => s ≠ [] && s ≠ ['.'])
  match comps.getLast? with
  | some last => if last = ['.', '.'] then none else some (String.mk last)
  | none => none

/-- Outcome of running `Episode::from_str`: `ok` for `Ok`, `err` for `Err(())`
(which the source never constructs), and `fault` for a panic — either the
`unwrap()` in the `filename` closure when the path has no file-name
component, or the `parse().expect("Capture is integer")` when a captured
digit group is not a valid `usize` literal.  (The `to_str().unwrap()` cannot
fail: the input is already a `&str`, so the file-name slice is valid
UTF-8.) -/
inductive RunResult (α : Type) where
  | ok (a : α)
  | err (e : Unit)
  | fault
deriving DecidableEq, Repr

/-- Decimal value of a string of ASCII digits. -/
def digitsToNat (cs : List Char) : Nat :=
  cs.foldl (fun acc c => 10 * acc + (c.toNat - '0'.toNat)) 0

/-- `str::parse::<usize>`: succeeds exactly on a nonempty string of ASCII
digits (`\d` captures cannot carry the optional leading sign, and at their
maximum length of two digits overflow is impossible).  A `\d` capture made of
non-ASCII decimal digits — e.g. Arabic-Indic digits — fails to parse, which
the source turns into a panic via `.expect("Capture is integer")`. -/
def parseUsize (cs : List Char) : Option Nat :=
  if cs ≠ [] && cs.all (fun c => c.isDigit) then some (digitsToNat cs) else none

/-- `caps.name(g).map(|a| a.as_str().parse().expect("Capture is integer"))
.unwrap_or(1)` (src/episode.rs:82-89): `1` when the group did not
participate, the parsed value when it did, and `none` — the `expect`
panic — when the captured text does not parse as a `usize`. -/
def capNum (caps : Caps) (nm : String) : Option Nat :=
  match caps.lookup nm with
  | some cs => parseUsize cs
  | none => some 1

/-- `impl FromStr for Episode` (src/episode.rs:62-104): a REG_SPECIAL match
makes a `Special` of the basename; otherwise REG_PARSE_OUT noise is replaced
by `#` and REG_EPS is run for captures, a match giving a `Numbered` with the
`s`/`e` captures (each defaulting to 1 when absent, and panicking — `fault` —
when present but unparseable, season first as in the source) and no match
falling back to a `Special` of the basename. -/
def from_str (path : String) : RunResult Episode :=
  if is_match REG_SPECIAL path.data then
    match file_name path with
    | some filename => .ok (.Special filename path)
    | none => .fault
  else
    match capturesFrom REG_EPS (replaceAll REG_PARSE_OUT path.data) 0 with
    | some caps =>
      match capNum caps "s" with
      | none => .fault
      | some season =>
        match capNum caps "e" with
        | none => .fault
        | some episode => .ok (.Numbered season episode path)
    | none =>
      match file_name path with
      | some filename => .ok (.Special filename path)
      | none => .fault

/-! ## Auxiliary notions for the noise-stripping analysis -/

/-- Minimum number of characters a pattern consumes in any successful
match. -/
def minLen : Re → Nat
  | .epsR => 0
  | .chr _ => 1
  | .cls _ => 1
  | .seq a b => minLen a + minLen b
  | .alt a b => min (minLen a) (minLen b)
  | .opt _ => 0
  | .rep _ mn _ => mn
  | .star _ _ => 0
  | .group _ a => minLen a
  | .bos => 0
  | .eos => 0

/-- Length of the digit run at the head of a character list. -/
def dpl : List Char → Nat
  | [] => 0
  | c :: r => if digit c then dpl r + 1 else 0

/-- Whether three consecutive digit characters occur anywhere in the list. -/
def hasRun3 : List Char → Bool
  | [] => false
  | c :: r => decide (3 ≤ dpl (c :: r)) || hasRun3 r

/-! ## Order-theoretic facts about the comparisons -/

theorem charCmp_eq_iff {a b : Char} : charCmp a b = .eq ↔ a = b := by
  unfold charCmp
  rw [Nat.compare_eq_eq]
  constructor
  · intro h
    have h2 := congrArg Char.ofNat h
    rwa [Char.ofNat_toNat, Char.ofNat_toNat] at h2
  · intro h
    rw [h]

theorem charCmp_swap (a b : Char) : (charCmp a b).swap = charCmp b a := by
  unfold charCmp
  rw [Nat.compare_swap]

theorem charCmp_lt_trans {a b c : Char} (h1 : charCmp a b = .lt) (h2 : charCmp b c = .lt) :
    charCmp a c = .lt := by
  unfold charCmp at *
  rw [Nat.compare_eq_lt] at *
  omega

theorem lexCmp_eq_iff : ∀ (a b : List Char), lexCmp a b = .eq ↔ a = b := by
  intro a
  induction a with
  | nil => intro b; cases b <;> simp [lexCmp]
  | cons x xs ih =>
    intro b
    cases b with
    | nil => simp [lexCmp]
    | cons y ys =>
      simp only [lexCmp]
      cases h : charCmp x y with
      | eq =>
        have hx : x = y := charCmp_eq_iff.mp h
        subst hx
        simpa using ih ys
      | lt =>
        simp only [List.cons.injEq]
        constructor
        · intro h2; cases h2
        · rintro ⟨h2, -⟩
          rw [charCmp_eq_iff.mpr h2] at h
          cases h
      | gt =>
        simp only [List.cons.injEq]
        constructor
        · intro h2; cases h2
        · rintro ⟨h2, -⟩
          rw [charCmp_eq_iff.mpr h2] at h
          cases h

theorem lexCmp_swap : ∀ (a b : List Char), (lexCmp a b).swap = lexCmp b a := by
  intro a
  induction a with
  | nil => intro b; cases b <;> simp [lexCmp, Ordering.swap]
  | cons x xs ih =>
    intro b
    cases b with
    | nil => simp [lexCmp, Ordering.swap]
    | cons y ys =>
      simp only [lexCmp]
      cases h : charCmp x y with
      | eq =>
        have h2 : charCmp y x = .eq := by
          rw [← charCmp_swap, h]; rfl
        rw [h2]
        exact ih ys
      | lt =>
        have h2 : charCmp y x = .gt := by
          rw [← charCmp_swap, h]; rfl
        rw [h2]; rfl
      | gt =>
        have h2 : charCmp y x = .lt := by
          rw [← charCmp_swap, h]; rfl
        rw [h2]; rfl

theorem lexCmp_lt_trans : ∀ (a b c : List Char),
    lexCmp a b = .lt → lexCmp b c = .lt → lexCmp a c = .lt := by
  intro a
  induction a with
  | nil =>
    intro b c h1 h2
    cases b with
    | nil => exact h2
    | cons y ys => cases c with
      | nil => simp [lexCmp] at h2
      | cons z zs => simp [lexCmp]
  | cons x xs ih =>
    intro b c h1 h2
    cases b with
    | nil => simp [lexCmp] at h1
    | cons y ys =>
      cases c with
      | nil => simp [lexCmp] at h2
      | cons z zs =>
        simp only [lexCmp] at h1 h2 ⊢
        cases hxy : charCmp x y with
        | eq =>
          have hx : x = y := charCmp_eq_iff.mp hxy
          subst hx
          rw [hxy] at h1
          cases hyz : charCmp x z with
          | eq =>
            have hz : x = z := charCmp_eq_iff.mp hyz
            subst hz
            rw [hyz] at h2
            exact ih ys zs h1 h2
          | lt => rfl
          | gt => rw [hyz] at h2; cases h2
        | lt =>
          cases hyz : charCmp y z with
          | eq =>
            have hz : y = z := charCmp_eq_iff.mp hyz
            subst hz
            rw [hxy]
          | lt => rw [charCmp_lt_trans hxy hyz]
          | gt => rw [hyz] at h2; cases h2
        | gt => rw [hxy] at h1; cases h1

theorem strCmp_eq_iff {a b : String} : strCmp a b = .eq ↔ a = b := by
  unfold strCmp
  rw [lexCmp_eq_iff]
  constructor
  · intro h
    cases a; cases b
    exact congrArg String.mk h
  · intro h
    rw [h]

theorem strCmp_swap (a b : String) : (strCmp a b).swap = strCmp b a :=
  lexCmp_swap a.data b.data

theorem strCmp_lt_trans {a b c : String} (h1 : strCmp a b = .lt) (h2 : strCmp b c = .lt) :
    strCmp a c = .lt :=
  lexCmp_lt_trans a.data b.data c.data h1 h2

theorem Episode.cmp_swap : ∀ (a b : Episode), (Episode.cmp a b).swap = Episode.cmp b a := by
  intro a b
  cases a with
  | Numbered s1 e1 p1 =>
    cases b with
    | Numbered s2 e2 p2 =>
      simp only [Episode.cmp]
      by_cases h : s1 = s2
      · subst h
        simp [Nat.compare_swap]
      · have h2 : ¬s2 = s1 := fun hh => h hh.symm
        simp [h, h2, Nat.compare_swap]
    | Special f2 p2 => rfl
  | Special f1 p1 =>
    cases b with
    | Numbered s2 e2 p2 => rfl
    | Special f2 p2 => exact strCmp_swap f1 f2

theorem Episode.cmp_lt_trans : ∀ (a b c : Episode),
    Episode.cmp a b = .lt → Episode.cmp b c = .lt → Episode.cmp a c = .lt := by
  intro a b c h1 h2
  cases a with
  | Numbered s1 e1 p1 =>
    cases b with
    | Numbered s2 e2 p2 =>
      cases c with
      | Numbered s3 e3 p3 =>
        simp only [Episode.cmp] at h1 h2 ⊢
        split_ifs at h1 h2 ⊢ <;> rw [Nat.compare_eq_lt] at * <;> omega
      | Special f3 p3 => cases h2
    | Special f2 p2 => cases h1
  | Special f1 p1 =>
    cases b with
    | Numbered s2 e2 p2 =>
      cases c with
      | Numbered s3 e3 p3 => rfl
      | Special f3 p3 => cases h2
    | Special f2 p2 =>
      cases c with
      | Numbered s3 e3 p3 => rfl
      | Special f3 p3 => exact strCmp_lt_trans h1 h2

/-! ## Claims C1 and C10: the Episode order -/

/-- Claim C1, counterexample.  The claim as stated is false twice over.
First, a `Numbered` compares `Greater` than a `Special` (src/episode.rs:46
returns `Ordering::Greater` when `self` is `Numbered` and `other` is
`Special`, and the source's own tests `episode_sort_2`/`episode_sort_3`
assert exactly that), so `Numbered` episodes are ordered *after* all
`Special` episodes, not before.  Second, for the distinct episodes
`Numbered{1,1,"a"}` and `Numbered{1,1,"b"}` none of `a<b`, `a=b`, `a>b`
holds: the comparison ignores `filepath` and yields `Equal`, while equality
is structural and yields `false`. -/
theorem C1_counterexample :
    Episode.cmp (.Numbered 1 1 "p") (.Special "f" "p") = .gt ∧
    Episode.cmp (.Numbered 1 1 "a") (.Numbered 1 1 "b") = .eq ∧
    Episode.Numbered 1 1 "a" ≠ Episode.Numbered 1 1 "b" := by
  refine ⟨by decide, by decide, by decide⟩

/-- Claim C1, amended.  The comparison on `Episode` is a strict total order
up to comparison-equality (not structural equality): for all `a`, `b` exactly
one of `cmp a b = Less`, `cmp a b = Equal`, `cmp a b = Greater` holds,
`Less` is antisymmetric with `Greater` and transitive; every `Special` is
ordered before every `Numbered`; among `Numbered`, `season` is compared
first, then `episode`; among `Special`, `filename` is compared
lexicographically. -/
theorem C1_total_preorder :
    (∀ a b : Episode,
      (Episode.cmp a b = .lt ∧ Episode.cmp a b ≠ .eq ∧ Episode.cmp a b ≠ .gt) ∨
      (Episode.cmp a b ≠ .lt ∧ Episode.cmp a b = .eq ∧ Episode.cmp a b ≠ .gt) ∨
      (Episode.cmp a b ≠ .lt ∧ Episode.cmp a b ≠ .eq ∧ Episode.cmp a b = .gt)) ∧
    (∀ a b : Episode, Episode.cmp a b = .lt ↔ Episode.cmp b a = .gt) ∧
    (∀ a b c : Episode,
      Episode.cmp a b = .lt → Episode.cmp b c = .lt → Episode.cmp a c = .lt) ∧
    (∀ (sn ep : Nat) (fp fn fp2 : String),
      Episode.cmp (.Special fn fp2) (.Numbered sn ep fp) = .lt) ∧
    (∀ (s1 e1 : Nat) (p1 : String) (s2 e2 : Nat) (p2 : String),
      Episode.cmp (.Numbered s1 e1 p1) (.Numbered s2 e2 p2) =
        if s1 = s2 then compare e1 e2 else compare s1 s2) ∧
    (∀ (f1 p1 f2 p2 : String),
      Episode.cmp (.Special f1 p1) (.Special f2 p2) = strCmp f1 f2) := by
  refine ⟨?_, ?_, Episode.cmp_lt_trans, fun _ _ _ _ _ => rfl,
    fun _ _ _ _ _ _ => rfl, fun _ _ _ _ => rfl⟩
  · intro a b
    cases h : Episode.cmp a b with
    | lt => exact .inl (by decide)
    | eq => exact .inr (.inl (by decide))
    | gt => exact .inr (.inr (by decide))
  · intro a b
    constructor
    · intro h
      rw [← Episode.cmp_swap a b, h]
      rfl
    · intro h
      have hs := Episode.cmp_swap a b
      rw [h] at hs
      cases hab : Episode.cmp a b with
      | lt => rfl
      | eq => rw [hab] at hs; cases hs
      | gt => rw [hab] at hs; cases hs

/-- Witness for `C1_total_preorder`: antisymmetry and transitivity
instantiated at concrete episodes. -/
theorem C1_total_preorder_witness :
    Episode.cmp (.Special "a" "x") (.Numbered 1 2 "y") = .lt ∧
    (Episode.cmp (.Numbered 1 1 "u") (.Numbered 1 2 "v") = .lt ↔
      Episode.cmp (.Numbered 1 2 "v") (.Numbered 1 1 "u") = .gt) :=
  ⟨C1_total_preorder.2.2.1 (.Special "a" "x") (.Numbered 1 1 "z") (.Numbered 1 2 "y")
      (by decide) (by decide),
   C1_total_preorder.2.1 (.Numbered 1 1 "u") (.Numbered 1 2 "v")⟩

/-- Claim C10: the ordering on `Episode` ignores the `filepath` field while
the (derived, structural) equality does not: two episodes of the same variant
agreeing on `season`/`episode` (for `Numbered`) or on `filename` (for
`Special`) but differing in `filepath` compare `Equal` yet are not equal; and
the map fold of `Database::episodes` therefore collapses all file paths of
one `(season, episode)` into the bucket of a single key (the first path
inserted supplies the key, later paths are appended to its bucket). -/
theorem C10_filepath_ignored :
    (∀ (s e : Nat) (p1 p2 : String),
      Episode.cmp (.Numbered s e p1) (.Numbered s e p2) = .eq) ∧
    (∀ (fn p1 p2 : String), Episode.cmp (.Special fn p1) (.Special fn p2) = .eq) ∧
    (∀ (s e : Nat) (p1 p2 : String), p1 ≠ p2 →
      Episode.Numbered s e p1 ≠ .Numbered s e p2) ∧
    (∀ (fn p1 p2 : String), p1 ≠ p2 → Episode.Special fn p1 ≠ .Special fn p2) ∧
    (∀ (p1 p2 : String),
      episodesOf "a" [⟨p1, "a", some 3, some 2, none⟩, ⟨p2, "a", some 3, some 2, none⟩] =
        some [(.Numbered 2 3 p1, [p1, p2])]) := by
  refine ⟨?_, ?_, ?_, ?_, ?_⟩
  · intro s e p1 p2
    simp [Episode.cmp, Nat.compare_eq_eq]
  · intro fn p1 p2
    exact strCmp_eq_iff.mpr rfl
  · intro s e p1 p2 hne h
    cases h
    exact hne rfl
  · intro fn p1 p2 hne h
    cases h
    exact hne rfl
  · intro p1 p2
    rfl

/-- Witness for `C10_filepath_ignored`: the inequality conjuncts at concrete
paths. -/
theorem C10_filepath_ignored_witness :
    Episode.Numbered 1 1 "a" ≠ Episode.Numbered 1 1 "b" ∧
    Episode.Special "f" "a" ≠ Episode.Special "f" "b" :=
  ⟨C10_filepath_ignored.2.2.1 1 1 "a" "b" (by decide),
   C10_filepath_ignored.2.2.2.1 "f" "a" "b" (by decide)⟩

/-! ## Claims C2, C4 and C3: the progress resolver -/

theorem update_map_last_watched (table : List AnimeRow) (anime : String) (s e : Nat) :
    (table.map (fun r =>
        if r.name = anime then
          { r with current_season := some s, current_episode := some e }
        else r)).map (fun r => r.last_watched) =
      table.map (fun r => r.last_watched) := by
  induction table with
  | nil => rfl
  | cons r t ih =>
    simp only [List.map_cons, ih]
    by_cases h : r.name = anime <;> simp [h]

/-- Claim C2, counterexample.  `updateWatched` on a `Special` key of the map
succeeds (`Ok 0`) but mutates nothing: the current episode stays
`(9, 9)` and is not set to the watched `Special`.  And on a `Numbered` key it
sets `current_season`/`current_episode` but leaves `last_watched` at its old
value `some 5`: no code path of `update_watched`/`update_watched_unchecked`
writes `last_watched` (the source sets only `current_season=?1,
current_episode=?2`), so `lastWatched` is never set to the current time. -/
theorem C2_counterexample :
    update_watched [⟨"a", some 9, some 9, some 5⟩] "a" (.Special "f" "pf")
        [(.Special "f" "pf", ["pf"])] =
      ([⟨"a", some 9, some 9, some 5⟩], .ok 0) ∧
    update_watched [⟨"a", some 9, some 9, some 5⟩] "a" (.Numbered 2 3 "q")
        [(.Numbered 2 3 "q", ["q"])] =
      ([⟨"a", some 2, some 3, some 5⟩], .ok 1) := by
  exact ⟨rfl, rfl⟩

/-- Claim C2, amended.  For every `Numbered` episode that is a key of the
show's episode map, `updateWatched` succeeds and sets
`current_season`/`current_episode` of the show's rows to it, leaving every
row's `last_watched` unchanged (the operation never touches that column); for
every `Special` key it succeeds with `Ok 0` and performs no mutation at all
(the source prints that the case is not implemented). -/
theorem C2_update_watched_amended :
    (∀ (table : List AnimeRow) (anime : String) (s e : Nat) (fp : String) (m : EpisodeMap),
      (m.get (.Numbered s e fp)).isSome →
      update_watched table anime (.Numbered s e fp) m =
        (table.map (fun r =>
            if r.name = anime then
              { r with current_season := some s, current_episode := some e }
            else r),
         .ok ((table.filter (fun r => r.name = anime)).length)) ∧
      (update_watched table anime (.Numbered s e fp) m).1.map (fun r => r.last_watched) =
        table.map (fun r => r.last_watched)) ∧
    (∀ (table : List AnimeRow) (anime : String) (fn fp : String) (m : EpisodeMap),
      (m.get (.Special fn fp)).isSome →
      update_watched table anime (.Special fn fp) m = (table, .ok 0)) := by
  constructor
  · intro table anime s e fp m hs
    cases hg : m.get (.Numbered s e fp) with
    | none => simp [hg] at hs
    | some b =>
      have he : update_watched table anime (.Numbered s e fp) m =
          update_watched_unchecked table anime (.Numbered s e fp) := by
        unfold update_watched
        rw [hg]
      rw [he]
      exact ⟨rfl, update_map_last_watched table anime s e⟩
  · intro table anime fn fp m hs
    cases hg : m.get (.Special fn fp) with
    | none => simp [hg] at hs
    | some b =>
      unfold update_watched
      rw [hg]
      rfl

/-- Witness for `C2_update_watched_amended` at a one-row table. -/
theorem C2_update_watched_amended_witness :
    update_watched [⟨"a", some 1, some 1, some 5⟩] "a" (.Numbered 2 3 "q")
        [(.Numbered 2 3 "q", ["q"])] =
      ([⟨"a", some 2, some 3, some 5⟩], .ok 1) ∧
    update_watched [⟨"a", some 1, some 1, some 5⟩] "a" (.Special "f" "pf")
        [(.Special "f" "pf", ["pf"])] =
      ([⟨"a", some 1, some 1, some 5⟩], .ok 0) := by
  constructor
  · have h := (C2_update_watched_amended.1 [⟨"a", some 1, some 1, some 5⟩] "a" 2 3 "q"
      [(.Numbered 2 3 "q", ["q"])] (by decide)).1
    rw [h]
    rfl
  · exact C2_update_watched_amended.2 [⟨"a", some 1, some 1, some 5⟩] "a" "f" "pf"
      [(.Special "f" "pf", ["pf"])] (by decide)

/-- Claim C4: for every show and every episode that is not a key of the
show's episode map, `updateWatched` returns the `NotExist` error carrying the
show identifier and the requested episode, and the table — in particular
`current_season`/`current_episode` and `last_watched` of every row — is
returned entirely unchanged. -/
theorem C4_not_exist_no_mutation :
    ∀ (table : List AnimeRow) (anime : String) (watched : Episode) (m : EpisodeMap),
      m.get watched = none →
      update_watched table anime watched m =
        (table, .error (.InvalidEpisode (.NotExist anime watched))) := by
  intro table anime watched m h
  unfold update_watched
  rw [h]

/-- Witness for `C4_not_exist_no_mutation`: an absent episode is rejected
with `NotExist` and the row keeps its old progress fields. -/
theorem C4_not_exist_no_mutation_witness :
    update_watched [⟨"a", some 1, some 1, some 5⟩] "a" (.Numbered 9 9 "z") [] =
      ([⟨"a", some 1, some 1, some 5⟩],
       .error (.InvalidEpisode (.NotExist "a" (.Numbered 9 9 "z")))) :=
  C4_not_exist_no_mutation [⟨"a", some 1, some 1, some 5⟩] "a" (.Numbered 9 9 "z") [] rfl

/-- Claim C3, counterexample.  The stored current episode is a
`(season, episode)` integer pair, so it can never "be" a `Special`; through
the only path the spec offers to make a `Special` current — a successful
`updateWatched` of a `Special` key — `nextEpisode` does *not* return `None`:
the update succeeds but leaves the current pair at `(1, 1)`, and
`next_episode` then returns the `S1E2` key, not `None`. -/
theorem C3_counterexample :
    (update_watched [⟨"a", some 1, some 1, none⟩] "a" (.Special "f" "pf")
        [(.Numbered 1 1 "p1", ["p1"]), (.Numbered 1 2 "p2", ["p2"]),
         (.Special "f" "pf", ["pf"])]).2 = .ok 0 ∧
    next_episode
        (update_watched [⟨"a", some 1, some 1, none⟩] "a" (.Special "f" "pf")
          [(.Numbered 1 1 "p1", ["p1"]), (.Numbered 1 2 "p2", ["p2"]),
           (.Special "f" "pf", ["pf"])]).1
        "a"
        [(.Numbered 1 1 "p1", ["p1"]), (.Numbered 1 2 "p2", ["p2"]),
         (.Special "f" "pf", ["pf"])] =
      .ok (some (.Numbered 1 2 "p2")) := by
  exact ⟨rfl, rfl⟩

/-- Claim C3, amended.  The current episode is stored as a
`(season, episode)` pair (a `Special` never becomes current, since
`updateWatched` ignores `Special`s): given current `(s, e)`,
`next_episode_raw` probes exactly `Numbered(s, e+1)`, then
`Numbered(s+1, 0)`, then `Numbered(s+1, 1)`, returns the first of these that
is a key of the episode map, and `None` when none of the three is a key; with
episodes `{S1E1, S1E2, S2E1}` and current `(1,2)` the result is `S2E1`, with
`{S1E1, S2E0}` and current `(1,1)` it is `S2E0`; and `next_episode` applies
this to the pair read from the show's row (each `NULL` column defaulting
to 1). -/
theorem C3_next_episode_amended :
    (∀ (s e : Nat) (m : EpisodeMap) (k : Episode),
      m.getKey (.Numbered s (e + 1) "") = some k →
      next_episode_raw (s, e) m = some k) ∧
    (∀ (s e : Nat) (m : EpisodeMap) (k : Episode),
      m.getKey (.Numbered s (e + 1) "") = none →
      m.getKey (.Numbered (s + 1) 0 "") = some k →
      next_episode_raw (s, e) m = some k) ∧
    (∀ (s e : Nat) (m : EpisodeMap) (k : Episode),
      m.getKey (.Numbered s (e + 1) "") = none →
      m.getKey (.Numbered (s + 1) 0 "") = none →
      m.getKey (.Numbered (s + 1) 1 "") = some k →
      next_episode_raw (s, e) m = some k) ∧
    (∀ (s e : Nat) (m : EpisodeMap),
      m.getKey (.Numbered s (e + 1) "") = none →
      m.getKey (.Numbered (s + 1) 0 "") = none →
      m.getKey (.Numbered (s + 1) 1 "") = none →
      next_episode_raw (s, e) m = none) ∧
    (next_episode_raw (1, 2)
        [(.Numbered 1 1 "p1", ["p1"]), (.Numbered 1 2 "p2", ["p2"]),
         (.Numbered 2 1 "p3", ["p3"])] = some (.Numbered 2 1 "p3")) ∧
    (next_episode_raw (1, 1)
        [(.Numbered 1 1 "p1", ["p1"]), (.Numbered 2 0 "p2", ["p2"])] =
      some (.Numbered 2 0 "p2")) ∧
    (∀ (table : List AnimeRow) (anime : String) (m : EpisodeMap) (r : AnimeRow),
      table.find? (fun r0 => r0.name = anime) = some r →
      next_episode table anime m =
        .ok (next_episode_raw (r.current_season.getD 1, r.current_episode.getD 1) m)) := by
  refine ⟨?_, ?_, ?_, ?_, by decide, by decide, ?_⟩
  · intro s e m k h1
    simp [next_episode_raw, h1]
  · intro s e m k h1 h2
    simp [next_episode_raw, h1, h2]
  · intro s e m k h1 h2 h3
    simp [next_episode_raw, h1, h2, h3]
  · intro s e m h1 h2 h3
    simp [next_episode_raw, h1, h2, h3]
  · intro table anime m r hf
    unfold next_episode current_episode
    rw [hf]
    rfl

/-- Witness for `C3_next_episode_amended`: the zero-indexed premiere probe
fires before the one-indexed probe on a concrete map. -/
theorem C3_next_episode_amended_witness :
    next_episode_raw (3, 7) [(.Numbered 4 0 "q", ["q"])] = some (.Numbered 4 0 "q") :=
  C3_next_episode_amended.2.1 3 7 [(.Numbered 4 0 "q", ["q"])] (.Numbered 4 0 "q")
    (by decide) (by decide)

/-! ## Claim C5: listing shows -/

/-- Claim C5, the code bug.  `Database::animes` pops the `BinaryHeap`, which
returns rows in *descending* order of the manual `TimeTitle` comparison; that
comparison reverses the time component (`time_b.cmp(&time_a)`), so the pop
sequence puts never-watched shows first (with identifier ties descending) and
the most recently watched show last — the exact reverse of the claimed order.
The source's own `heap_test` exhibits the intended order through
`into_sorted_vec()` (ascending: `(Some 400, "a")` first, `(None, "c")` last),
which matches the claim, while `animes` pops the same heap and therefore
produces the reverse.  The second conjunct evaluates the embedded `animes` on
exactly the `heap_test` rows: the output is the reverse of the name sequence
of the test's expected vector. -/
theorem C5_animes_order_bug :
    animes [(none, "a"), (some 400, "b")] = ["a", "b"] ∧
    animes [(none, "a"), (some 300, "e"), (none, "c"), (some 400, "c"), (some 400, "b"),
            (none, "b"), (some 10, "d"), (some 400, "a")] =
      ["c", "b", "a", "d", "e", "c", "b", "a"] := by
  exact ⟨rfl, rfl⟩

/-! ## Claim C8: synchronization is idempotent -/

theorem insertOrIgnore_any (p : EpisodeRow → Bool) {t : List EpisodeRow} (r : EpisodeRow)
    (h : t.any p = true) : (insertOrIgnore t r).any p = true := by
  unfold insertOrIgnore
  split
  · exact h
  · simp only [List.any_append, h, Bool.true_or]

theorem insertOrIgnore_self_any (t : List EpisodeRow) (r : EpisodeRow) :
    (insertOrIgnore t r).any (fun r0 => r0.path = r.path) = true := by
  unfold insertOrIgnore
  split
  · next h => exact h
  · simp [List.any_append]

theorem update_any (p : EpisodeRow → Bool) :
    ∀ (es : List (String × String × Episode)) (t : List EpisodeRow),
      t.any p = true → (update t es).any p = true := by
  intro es
  induction es with
  | nil => intro t h; exact h
  | cons e es ih =>
    intro t h
    exact ih _ (insertOrIgnore_any p _ h)

theorem insertOrIgnore_of_present {t : List EpisodeRow} {r : EpisodeRow}
    (h : t.any (fun r0 => r0.path = r.path) = true) : insertOrIgnore t r = t := by
  simp [insertOrIgnore, h]

theorem update_idem : ∀ (es : List (String × String × Episode)) (t : List EpisodeRow),
    update (update t es) es = update t es := by
  intro es
  induction es with
  | nil => intro t; rfl
  | cons e es ih =>
    intro t
    simp only [update]
    rw [insertOrIgnore_of_present
      (update_any _ es _ (insertOrIgnore_self_any t (episodeRowOf e.1 e.2.1 e.2.2)))]
    exact ih _

/-- Claim C8: replaying the same classified directory contents (the same
entry list) through the `INSERT OR IGNORE` loop of `Database::update` a
second time leaves the episode table exactly as after the first pass — the
`path` primary key of every entry is already present, so every insert is
ignored — and therefore `Database::episodes` builds an identical episode map:
the same keys, and for each key the same bucket contents in the same
order. -/
theorem C8_sync_idempotent :
    ∀ (entries : List (String × String × Episode)) (t : List EpisodeRow),
      update (update t entries) entries = update t entries ∧
      ∀ anime : String,
        episodesOf anime (update (update t entries) entries) =
          episodesOf anime (update t entries) := by
  intro entries t
  refine ⟨update_idem entries t, fun anime => ?_⟩
  rw [update_idem entries t]

/-! ## Claims C6 and C7: the classifier -/

/-- Claim C6, counterexample.  `Episode::from_str` has error type `()` and no
code path constructs an error, so classification never returns `InvalidFile`
or `UTF8` (those variants live in `DatabaseError` and are not produced by the
classifier; `UTF8` is never constructed anywhere).  On the path "/OVA./..",
which has no file-name component but matches REG_SPECIAL, classification
panics in the `filename` closure's `unwrap()` instead of returning an
`InvalidFile` error.  And the claim's second half fails too: on
"x٣٤.mkv" — whose file name is representable — the Unicode-aware `\d{1,2}`
captures the Arabic-Indic digits `٣٤`, `parse::<usize>` rejects them, and the
`expect("Capture is integer")` panics instead of resolving to a value. -/
theorem C6_counterexample :
    from_str "/OVA./.." = .fault ∧ file_name "/OVA./.." = none ∧
    from_str "x٣٤.mkv" = .fault ∧ file_name "x٣٤.mkv" = some "x٣٤.mkv" := by
  refine ⟨rfl, rfl, by decide, by decide⟩

/-- Claim C6, amended.  Classification never returns an error (the `Err`
value of its trivial error type is never produced): a REG_SPECIAL match or
the fallback yields `Special{basename}`, and a REG_EPS match whose captured
digit groups parse as integers yields `Numbered`.  Classification can panic,
in exactly two ways: the `unwrap()` of the `filename` closure when a
`Special` branch needs a basename and the path has no file-name component,
and the `parse().expect("Capture is integer")` when a captured `\d` group
holds non-ASCII decimal digits; a `UTF8` failure cannot occur because the
input is already a text string. -/
theorem C6_classify_total_amended :
    (∀ path : String, from_str path ≠ .err ()) ∧
    (∀ path fn : String, file_name path = some fn →
      is_match REG_SPECIAL path.data = true →
      from_str path = .ok (.Special fn path)) ∧
    (∀ path fn : String, file_name path = some fn →
      is_match REG_SPECIAL path.data = false →
      capturesFrom REG_EPS (replaceAll REG_PARSE_OUT path.data) 0 = none →
      from_str path = .ok (.Special fn path)) ∧
    (∀ (path : String) (caps : Caps) (sn ep : Nat),
      is_match REG_SPECIAL path.data = false →
      capturesFrom REG_EPS (replaceAll REG_PARSE_OUT path.data) 0 = some caps →
      capNum caps "s" = some sn →
      capNum caps "e" = some ep →
      from_str path = .ok (.Numbered sn ep path)) ∧
    (∀ path : String, from_str path = .fault →
      file_name path = none ∨
      ∃ caps, capturesFrom REG_EPS (replaceAll REG_PARSE_OUT path.data) 0 = some caps ∧
        (capNum caps "s" = none ∨ capNum caps "e" = none)) := by
  refine ⟨?_, ?_, ?_, ?_, ?_⟩
  · intro path
    unfold from_str
    split
    · split <;> intro h <;> cases h
    · split
      · split
        · intro h; cases h
        · split <;> intro h <;> cases h
      · split <;> intro h <;> cases h
  · intro path fn hf hs
    simp only [from_str, hs, if_true, hf]
  · intro path fn hf hs hc
    simp only [from_str, hs, Bool.false_eq_true, if_false, hc, hf]
  · intro path caps sn ep hs hc hsn hep
    simp only [from_str, hs, Bool.false_eq_true, if_false, hc, hsn, hep]
  · intro path h
    unfold from_str at h
    split at h
    · split at h
      · cases h
      · next hf => exact .inl hf
    · split at h
      · next caps heq =>
        split at h
        · next hsn => exact .inr ⟨caps, heq, .inl hsn⟩
        · split at h
          · next hen => exact .inr ⟨caps, heq, .inr hen⟩
          · cases h
      · split at h
        · cases h
        · next hf => exact .inl hf

/-- Witness for `C6_classify_total_amended`: a name matching nothing falls
back to `Special` of its basename, and an ASCII episode capture yields
`Numbered` — no error either way. -/
theorem C6_classify_total_amended_witness :
    from_str "a.mkv" = .ok (.Special "a.mkv" "a.mkv") ∧
    from_str "a_1.mkv" = .ok (.Numbered 1 1 "a_1.mkv") := by
  constructor
  · exact C6_classify_total_amended.2.2.1 "a.mkv" "a.mkv" (by decide) (by decide) (by decide)
  · exact C6_classify_total_amended.2.2.2.1 "a_1.mkv" [("e", ['1'])] 1 1 (by decide)
      (by decide) (by decide) (by decide)

/-- Claim C7: `from_str` is a pure function of the path string (determinism
on fixed literal inputs is intrinsic to the embedding) and classifies the
four reference filenames exactly as the specification lists them. -/
theorem C7_classifier_literals :
    from_str "[sam] Vinland Saga - 24 [BD 1080p FLAC] [6696F95B].mkv" =
      .ok (.Numbered 1 24 "[sam] Vinland Saga - 24 [BD 1080p FLAC] [6696F95B].mkv") ∧
    from_str "Girls.und.Panzer.S01E04.1080p-Hi10p.BluRay.FLAC2.1.x264-CTR.[1123C40D].mkv" =
      .ok (.Numbered 1 4
        "Girls.und.Panzer.S01E04.1080p-Hi10p.BluRay.FLAC2.1.x264-CTR.[1123C40D].mkv") ∧
    from_str "[Datte13] Yuyushiki - S01E12 - Uneventful Good Life.mkv" =
      .ok (.Numbered 1 12 "[Datte13] Yuyushiki - S01E12 - Uneventful Good Life.mkv") ∧
    from_str "[Arid] Sound! Euphonium - Creditless OP [D04F5D1D].mkv" =
      .ok (.Special "[Arid] Sound! Euphonium - Creditless OP [D04F5D1D].mkv"
        "[Arid] Sound! Euphonium - Creditless OP [D04F5D1D].mkv") := by
  refine ⟨by decide, by decide, by decide, by decide⟩

/-! ## Claim C9: noise stripping

The analysis rests on two facts about `REG_PARSE_OUT`: every successful match
consumes at least three characters (via a minimum-consumption lemma for the
matcher), and a match attempt at a position where three consecutive digits
stand always succeeds (the `\d{3}` alternative fires).  Together they give:
after `replace_all`, no three consecutive digit characters survive. -/

theorem orElse_isSome {α : Type} (x : Option α) (y : Unit → Option α) :
    (x.orElse y).isSome = (x.isSome || (y ()).isSome) := by
  cases x <;> rfl

theorem foldr_orElse_some {α β : Type} (f : β → Option α) :
    ∀ (l : List β) (v : α),
      l.foldr (fun q acc => (f q).orElse (fun _ => acc)) none = some v →
      ∃ q ∈ l, f q = some v := by
  intro l
  induction l with
  | nil => intro v h; cases h
  | cons x xs ih =>
    intro v h
    simp only [List.foldr] at h
    cases hf : f x with
    | some w =>
      rw [hf] at h
      simp only [Option.orElse] at h
      exact ⟨x, List.mem_cons_self x xs, hf.trans h⟩
    | none =>
      rw [hf] at h
      simp only [Option.orElse] at h
      obtain ⟨q, hq, hfq⟩ := ih v h
      exact ⟨q, List.mem_cons_of_mem x hq, hfq⟩

theorem clsSplits_spec (p : Char → Bool) :
    ∀ (mx : Nat) (s : List Char) (q : List Char × Nat), q ∈ clsSplits p mx s →
      q.1 = s.drop q.2 ∧ q.2 ≤ s.length := by
  intro mx
  induction mx with
  | zero =>
    intro s q hq
    simp only [clsSplits, List.mem_singleton] at hq
    subst hq
    exact ⟨rfl, Nat.zero_le _⟩
  | succ mx ih =>
    intro s q hq
    cases s with
    | nil =>
      simp only [clsSplits, List.mem_singleton] at hq
      subst hq
      exact ⟨rfl, Nat.zero_le _⟩
    | cons c rest =>
      simp only [clsSplits] at hq
      by_cases hp : p c = true
      · rw [if_pos hp] at hq
        rcases List.mem_append.mp hq with hl | hr
        · obtain ⟨q0, hq0, hmap⟩ := List.mem_map.mp hl
          obtain ⟨h1, h2⟩ := ih rest q0 hq0
          subst hmap
          refine ⟨?_, ?_⟩
          · simpa using h1
          · simpa using Nat.succ_le_succ h2
        · simp only [List.mem_singleton] at hr
          subst hr
          exact ⟨rfl, Nat.zero_le _⟩
      · rw [if_neg hp] at hq
        simp only [List.mem_singleton] at hq
        subst hq
        exact ⟨rfl, Nat.zero_le _⟩

theorem mtch_minLen {α : Type} :
    ∀ (re : Re) (s : List Char) (pos : Nat) (caps : Caps)
      (k : List Char → Nat → Caps → Option α) (v : α),
      mtch re s pos caps k = some v →
      ∃ (m : Nat) (caps2 : Caps), minLen re ≤ m ∧ m ≤ s.length ∧
        k (s.drop m) (pos + m) caps2 = some v := by
  intro re
  induction re with
  | epsR =>
    intro s pos caps k v h
    exact ⟨0, caps, Nat.le_refl 0, Nat.zero_le _, by simpa using h⟩
  | chr c =>
    intro s pos caps k v h
    simp only [mtch] at h
    cases s with
    | nil => cases h
    | cons c2 rest =>
      have h2 : (if c2 = c then k rest (pos + 1) caps else none) = some v := h
      by_cases hc : c2 = c
      · rw [if_pos hc] at h2
        exact ⟨1, caps, Nat.le_refl 1, by simp, h2⟩
      · rw [if_neg hc] at h2
        cases h2
  | cls p =>
    intro s pos caps k v h
    simp only [mtch] at h
    cases s with
    | nil => cases h
    | cons c2 rest =>
      have h2 : (if p c2 = true then k rest (pos + 1) caps else none) = some v := h
      by_cases hc : p c2 = true
      · rw [if_pos hc] at h2
        exact ⟨1, caps, Nat.le_refl 1, by simp, h2⟩
      · rw [if_neg hc] at h2
        cases h2
  | seq a b iha ihb =>
    intro s pos caps k v h
    simp only [mtch] at h
    obtain ⟨m1, caps1, hm1, hlen1, h1⟩ := iha s pos caps _ v h
    obtain ⟨m2, caps2, hm2, hlen2, h2⟩ := ihb (s.drop m1) (pos + m1) caps1 k v h1
    have e1 : (s.drop m1).drop m2 = s.drop (m1 + m2) := by
      rw [List.drop_drop, Nat.add_comm]
    have e2 : pos + m1 + m2 = pos + (m1 + m2) := by omega
    rw [e1, e2] at h2
    have hd : (s.drop m1).length = s.length - m1 := List.length_drop m1 s
    refine ⟨m1 + m2, caps2, ?_, ?_, h2⟩
    · simp only [minLen]
      omega
    · omega
  | alt a b iha ihb =>
    intro s pos caps k v h
    simp only [mtch] at h
    cases ha : mtch a s pos caps k with
    | some w =>
      rw [ha] at h
      simp only [Option.orElse] at h
      obtain ⟨m, caps2, hm, hlen, hk⟩ := iha s pos caps k v (ha.trans h)
      exact ⟨m, caps2, Nat.le_trans (Nat.min_le_left _ _) hm, hlen, hk⟩
    | none =>
      rw [ha] at h
      simp only [Option.orElse] at h
      obtain ⟨m, caps2, hm, hlen, hk⟩ := ihb s pos caps k v h
      exact ⟨m, caps2, Nat.le_trans (Nat.min_le_right _ _) hm, hlen, hk⟩
  | opt a iha =>
    intro s pos caps k v h
    simp only [mtch] at h
    cases ha : mtch a s pos caps k with
    | some w =>
      rw [ha] at h
      simp only [Option.orElse] at h
      obtain ⟨m, caps2, hm, hlen, hk⟩ := iha s pos caps k v (ha.trans h)
      exact ⟨m, caps2, Nat.zero_le _, hlen, hk⟩
    | none =>
      rw [ha] at h
      simp only [Option.orElse] at h
      exact ⟨0, caps, Nat.le_refl 0, Nat.zero_le _, by simpa using h⟩
  | rep p mn mx =>
    intro s pos caps k v h
    simp only [mtch] at h
    obtain ⟨q, hq, hfq⟩ := foldr_orElse_some _ _ v h
    obtain ⟨hq1, hq2⟩ := List.mem_filter.mp hq
    have hmn : mn ≤ q.2 := of_decide_eq_true hq2
    obtain ⟨hd, hl⟩ := clsSplits_spec p mx s q hq1
    rw [hd] at hfq
    exact ⟨q.2, caps, hmn, hl, hfq⟩
  | star p greedy =>
    intro s pos caps k v h
    simp only [mtch] at h
    have hmem : ∃ q ∈ clsSplits p s.length s, k q.1 (pos + q.2) caps = some v := by
      cases greedy with
      | true =>
        simp only [if_true] at h
        exact foldr_orElse_some _ _ v h
      | false =>
        simp only [if_false, Bool.false_eq_true] at h
        obtain ⟨q, hq, hfq⟩ := foldr_orElse_some _ _ v h
        exact ⟨q, List.mem_reverse.mp hq, hfq⟩
    obtain ⟨q, hq, hfq⟩ := hmem
    obtain ⟨hd, hl⟩ := clsSplits_spec p s.length s q hq
    rw [hd] at hfq
    exact ⟨q.2, caps, Nat.zero_le _, hl, hfq⟩
  | group nm a iha =>
    intro s pos caps k v h
    simp only [mtch] at h
    obtain ⟨m, caps2, hm, hlen, hk⟩ := iha s pos caps _ v h
    exact ⟨m, (nm, s.take (pos + m - pos)) :: caps2, hm, hlen, hk⟩
  | bos =>
    intro s pos caps k v h
    simp only [mtch] at h
    by_cases hp : pos = 0
    · rw [if_pos hp] at h
      exact ⟨0, caps, Nat.le_refl 0, Nat.zero_le _, by simpa using h⟩
    · rw [if_neg hp] at h
      cases h
  | eos =>
    intro s pos caps k v h
    simp only [mtch] at h
    by_cases hp : s.isEmpty = true
    · rw [if_pos hp] at h
      exact ⟨0, caps, Nat.le_refl 0, Nat.zero_le _, by simpa using h⟩
    · rw [if_neg hp] at h
      cases h

/-- Every successful `REG_PARSE_OUT` match consumes at least 3 characters
(the shortest alternative is `\d{3}`). -/
theorem matchAt_parse_out_ge {s : List Char} {pos n : Nat}
    (h : matchAt REG_PARSE_OUT s pos = some n) : 3 ≤ n := by
  unfold matchAt at h
  obtain ⟨m, caps2, hm, hlen, hk⟩ := mtch_minLen REG_PARSE_OUT s pos [] _ n h
  have hmn : pos + m - pos = n := by injection hk
  have hmin : minLen REG_PARSE_OUT = 3 := rfl
  omega

theorem alt_isSome_left {α : Type} (a b : Re) (s : List Char) (pos : Nat) (caps : Caps)
    (k : List Char → Nat → Caps → Option α) (h : (mtch a s pos caps k).isSome = true) :
    (mtch (.alt a b) s pos caps k).isSome = true := by
  simp only [mtch, orElse_isSome, h, Bool.true_or]

theorem alt_isSome_right {α : Type} (a b : Re) (s : List Char) (pos : Nat) (caps : Caps)
    (k : List Char → Nat → Caps → Option α) (h : (mtch b s pos caps k).isSome = true) :
    (mtch (.alt a b) s pos caps k).isSome = true := by
  simp only [mtch, orElse_isSome, h, Bool.or_true]

/-- A `REG_PARSE_OUT` match attempt at a position holding three consecutive
digits always succeeds: the `\d{3}` alternative fires (an earlier alternative
may fire instead, which is just as good). -/
theorem matchAt_parse_out_digits {a b c : Char} (r : List Char) (pos : Nat)
    (ha : digit a = true) (hb : digit b = true) (hc : digit c = true) :
    (matchAt REG_PARSE_OUT (a :: b :: c :: r) pos).isSome = true := by
  have h3 : clsSplits digit 3 (a :: b :: c :: r) =
      [(r, 3), (c :: r, 2), (b :: c :: r, 1), (a :: b :: c :: r, 0)] := by
    simp [clsSplits, ha, hb, hc]
  have h4 : mtch (.rep digit 3 3) (a :: b :: c :: r) pos ([] : Caps)
      (fun _ pos2 _ => some (pos2 - pos)) = some 3 := by
    simp [mtch, h3, List.filter]
  have h5 : (mtch (Re.rep digit 3 3) (a :: b :: c :: r) pos ([] : Caps)
      (fun _ pos2 _ => some (pos2 - pos))).isSome = true := by
    rw [h4]
    rfl
  unfold matchAt REG_PARSE_OUT
  exact alt_isSome_left _ _ _ _ _ _
    (alt_isSome_right _ _ _ _ _ _ (alt_isSome_right _ _ _ _ _ _
      (alt_isSome_right _ _ _ _ _ _ h5)))

theorem dpl_cons_pos {c : Char} {r : List Char} {n : Nat} (h : n + 1 ≤ dpl (c :: r)) :
    digit c = true ∧ n ≤ dpl r := by
  by_cases hd : digit c = true
  · simp only [dpl, hd, if_true] at h
    exact ⟨hd, by omega⟩
  · rw [Bool.not_eq_true] at hd
    simp [dpl, hd] at h

theorem dpl_ge3 {s : List Char} (h : 3 ≤ dpl s) :
    ∃ a b c r, s = a :: b :: c :: r ∧ digit a = true ∧ digit b = true ∧ digit c = true := by
  cases s with
  | nil => simp [dpl] at h
  | cons a s1 =>
    obtain ⟨ha, h1⟩ := dpl_cons_pos h
    cases s1 with
    | nil => simp [dpl] at h1
    | cons b s2 =>
      obtain ⟨hb, h2⟩ := dpl_cons_pos h1
      cases s2 with
      | nil => simp [dpl] at h2
      | cons c s3 =>
        obtain ⟨hc, h3⟩ := dpl_cons_pos h2
        exact ⟨a, b, c, s3, rfl, ha, hb, hc⟩

theorem noRun3_replaceAllFuel :
    ∀ (fuel : Nat) (s : List Char) (pos : Nat),
      s.length ≤ fuel →
      hasRun3 (replaceAllFuel REG_PARSE_OUT fuel s pos) = false ∧
      dpl (replaceAllFuel REG_PARSE_OUT fuel s pos) ≤ dpl s := by
  intro fuel
  induction fuel with
  | zero =>
    intro s pos hlen
    have hs : s = [] := List.length_eq_zero.mp (Nat.le_zero.mp hlen)
    subst hs
    exact ⟨rfl, Nat.le_refl _⟩
  | succ fuel ih =>
    intro s pos hlen
    cases s with
    | nil => exact ⟨rfl, Nat.le_refl _⟩
    | cons c rest =>
      simp only [List.length_cons] at hlen
      cases hm : matchAt REG_PARSE_OUT (c :: rest) pos with
      | none =>
        have hrec := ih rest (pos + 1) (by omega)
        simp only [replaceAllFuel, hm]
        have hnot : ¬(3 ≤ dpl (c :: replaceAllFuel REG_PARSE_OUT fuel rest (pos + 1))) := by
          intro h3
          obtain ⟨hc, h2⟩ := dpl_cons_pos h3
          have h2r : 2 ≤ dpl rest := Nat.le_trans h2 hrec.2
          have h3r : 3 ≤ dpl (c :: rest) := by
            simp only [dpl, hc, if_true]
            omega
          obtain ⟨a, b, c3, r, heq, ha, hb, hc3⟩ := dpl_ge3 h3r
          rw [heq] at hm
          have hsome := matchAt_parse_out_digits r pos ha hb hc3
          rw [hm] at hsome
          cases hsome
        constructor
        · simp only [hasRun3, decide_eq_false hnot, Bool.false_or]
          exact hrec.1
        · by_cases hc : digit c = true
          · simp only [dpl, hc, if_true]
            have := hrec.2
            omega
          · rw [Bool.not_eq_true] at hc
            simp [dpl, hc]
      | some n =>
        cases n with
        | zero => exact absurd (matchAt_parse_out_ge hm) (by omega)
        | succ n2 =>
          have hlen2 : (rest.drop n2).length ≤ fuel := by
            have := List.length_drop n2 rest
            omega
          have hrec := ih (rest.drop n2) (pos + (n2 + 1)) hlen2
          simp only [replaceAllFuel, hm]
          have hzero : dpl ('#' :: replaceAllFuel REG_PARSE_OUT fuel (rest.drop n2)
              (pos + (n2 + 1))) = 0 := rfl
          constructor
          · simp only [hasRun3, hzero]
            have hdec : decide (3 ≤ 0) = false := rfl
            simp only [hdec, Bool.false_or]
            exact hrec.1
          · rw [hzero]
            exact Nat.zero_le _

/-- Claim C9, counterexample.  The stripping pattern is
`(x256|x265|\d{4}|\d{3})|10.bits`: it lists the literal `x256`, not `x264`,
and its `10.bits` alternative demands a separator character between `10` and
`bits`, so the 10bit-style marker in "Show_10bits.mkv" is not replaced at
all — and the primary pattern then captures the `1` of `10bits` as the
episode number, classifying the file as `Numbered{season:1, episode:1}`.
The token `x264` is also never replaced as a whole: only its digits fall to
the 3-digit rule, leaving `x#`. -/
theorem C9_counterexample :
    replaceAll REG_PARSE_OUT "Show_10bits.mkv".data = "Show_10bits.mkv".data ∧
    from_str "Show_10bits.mkv" = .ok (.Numbered 1 1 "Show_10bits.mkv") ∧
    replaceAll REG_PARSE_OUT "x264".data = "x#".data := by
  refine ⟨by decide, by decide, by decide⟩

/-- Claim C9, amended.  Before primary extraction the classifier replaces,
with the placeholder `#`, every match of `(x256|x265|\d{4}|\d{3})|10.bits`:
the literal markers `x256` and `x265`, every 4-digit and then 3-digit
sequence (leftmost-first), and *separated* `10·bits` markers.  Consequently
no three consecutive digit characters survive stripping, so no 3-4-digit
sequence can be captured as the episode or season number (both captures hold
at most two digits and can no longer sit inside a longer digit run).  The
literal `x264` and unseparated `10bit`/`10bits` markers are, however, not
replaced as tokens — the digits of `x264` fall to the 3-digit rule, while an
unseparated `10bits` survives and its digit can still be captured as an
episode number (see the counterexample). -/
theorem C9_noise_strip_amended :
    (∀ s : String, hasRun3 (replaceAll REG_PARSE_OUT s.data) = false) ∧
    replaceAll REG_PARSE_OUT "x256".data = "#".data ∧
    replaceAll REG_PARSE_OUT "x265".data = "#".data ∧
    replaceAll REG_PARSE_OUT "1080".data = "#".data ∧
    replaceAll REG_PARSE_OUT "720".data = "#".data ∧
    replaceAll REG_PARSE_OUT "10.bits".data = "#".data ∧
    replaceAll REG_PARSE_OUT "10 bits".data = "#".data := by
  refine ⟨?_, by decide, by decide, by decide, by decide, by decide, by decide⟩
  intro s
  exact (noRun3_replaceAllFuel s.data.length s.data 0 (Nat.le_refl _)).1
